import Mathlib

/-!
Verification of the `cc-latest` / `aic` changelog aggregation tool.

The Go sources are shallowly embedded below.  Strings are modelled as
`List Char` (Go compares strings byte-wise; for UTF-8 this agrees with
code-point-wise comparison, which is what the embedding uses).  Times
(`time.Time`) are modelled as nanosecond counts `Nat`, where `0` plays the
role of Go's zero `time.Time` (`IsZero`).  Durations (`time.Duration`) are
modelled as `Int` nanoseconds; Go's integer division of durations truncates
toward zero, which is `Int.tdiv`.  The conversions through `float64` that Go
performs in `duration.Minutes()` etc. are modelled as exact integer division,
which agrees with the Go code on all realistic magnitudes.
-/

/-- Strings as lists of characters. -/
abbrev Str := List Char

/-- Go `unicode.IsSpace`: the Unicode White_Space code points. -/
def isGoSpace (c : Char) : Bool :=
  let n := c.toNat
  (9 ≤ n && n ≤ 13) || n == 32 || n == 133 || n == 160 || n == 5760 ||
    (8192 ≤ n && n ≤ 8202) || n == 8232 || n == 8233 || n == 8239 ||
    n == 8287 || n == 12288

/-- Go regexp `\s` (RE2 Perl class): tab, newline, form feed, carriage return, space. -/
def isRe2Space (c : Char) : Bool :=
  let n := c.toNat
  n == 9 || n == 10 || n == 12 || n == 13 || n == 32

/-- Go `strings.TrimSpace`: drop leading and trailing Unicode white space. -/
def trimSpace (s : Str) : Str :=
  ((s.dropWhile isGoSpace).reverse.dropWhile isGoSpace).reverse

/-- Go `strings.HasPrefix p s` (argument order: pattern first here). -/
def hasPref : Str → Str → Bool
  | [], _ => true
  | _ :: _, [] => false
  | p :: ps, c :: cs => p == c && hasPref ps cs

/-- Go `strings.TrimPrefix`: remove `p` from the front of `s` when present. -/
def stripPref (p s : Str) : Str :=
  if hasPref p s then s.drop p.length else s

/-- Go `strings.Split s "\n"`. -/
def splitNL : Str → List Str
  | [] => [[]]
  | c :: rest =>
    if c = '\n' then [] :: splitNL rest
    else
      match splitNL rest with
      | [] => [[c]]
      | l :: ls => (c :: l) :: ls

/-- Go string slicing `content[a:b]`. -/
def sliceStr (content : Str) (a b : Nat) : Str :=
  (content.take b).drop a

/-- The literal `"- "`. -/
def dashSp : Str := ['-', ' ']

/-- The literal `"* "`. -/
def starSp : Str := ['*', ' ']

/-- The literal `"@"`. -/
def atSp : Str := ['@']

/-- The literal `"What's Changed"` (apostrophe built via `Char.ofNat 39`). -/
def wcName : Str :=
  ['W', 'h', 'a', 't', Char.ofNat 39, 's', ' ',
   'C', 'h', 'a', 'n', 'g', 'e', 'd']

/-- One named grouping of changes within a release (Go struct `Section`). -/
structure Section where
  name : Str
  changes : List Str
  deriving DecidableEq, Repr

/-- One release/version (Go struct `ChangelogEntry` of the `aic` variant).
`releasedAt = 0` models Go's zero `time.Time`. -/
structure ChangelogEntry where
  version : Str
  releasedAt : Nat := 0
  source : Str := []
  sections : List Section := []
  changes : List Str := []
  deriving DecidableEq, Repr

/-- The per-line step of Go `parseChanges`: trim the line, and when it
starts with `"- "` return it with the marker stripped. -/
def dashLineOf (line : Str) : Option Str :=
  let t := trimSpace line
  if hasPref dashSp t then some (t.drop 2) else none

/-- Go `parseChanges`: the trimmed `"- "`-prefixed lines, marker stripped. -/
def parseChanges (content : Str) : List Str :=
  (splitNL content).filterMap dashLineOf

/-- One element of Go `regexp.FindAllStringSubmatchIndex` output for a pattern
with one capture group: `start`/`stop` delimit the whole match,
`capStart`/`capStop` the capture group. -/
structure GoMatch where
  start : Nat
  stop : Nat
  capStart : Nat
  capStop : Nat
  deriving DecidableEq, Repr

/-- Go `parseMarkdownChangelog`, with the regex-match positions passed in
explicitly (the loop body is a direct transcription of the Go source). -/
def parseMarkdownChangelog (content : Str) : List GoMatch → List ChangelogEntry
  | [] => []
  | m :: rest =>
    let contentEnd :=
      match rest with
      | [] => content.length
      | m2 :: _ => m2.start
    { version := sliceStr content m.capStart m.capStop,
      changes := parseChanges (sliceStr content m.stop contentEnd) }
      :: parseMarkdownChangelog content rest

/-- The Go regex `^#{1,3}\s+(.+)$` applied to one (newline-free) line:
returns the capture group when the line matches. -/
def matchHeader (l : Str) : Option Str :=
  let hs := (l.takeWhile (fun c => c == '#')).length
  if 1 ≤ hs ∧ hs ≤ 3 then
    let rest := l.drop hs
    let ws := rest.takeWhile isRe2Space
    let tl := rest.drop ws.length
    if ws.length = 0 then none
    else if tl ≠ [] then some tl
    else if 2 ≤ ws.length then some (rest.drop (ws.length - 1))
    else none
  else none

/-- Flush of `currentSection` in Go `parseReleaseBody`: kept only when it
accumulated at least one change. -/
def flushSec : Option Section → List Section
  | none => []
  | some s => if s.changes = [] then [] else [s]

/-- The line loop of Go `parseReleaseBody` (the `aic` variant returning
sections and ungrouped changes), with the current-section cursor explicit. -/
def prbGo : List Str → Option Section → List Section × List Str
  | [], cur => (flushSec cur, [])
  | line :: rest, cur =>
    let trimmed := trimSpace line
    match matchHeader trimmed with
    | some nm =>
      let headerName := trimSpace nm
      if headerName = wcName then prbGo rest cur
      else
        let r := prbGo rest (some { name := headerName, changes := [] })
        (flushSec cur ++ r.1, r.2)
    | none =>
      if hasPref dashSp trimmed || hasPref starSp trimmed then
        let change := stripPref starSp (stripPref dashSp trimmed)
        if change ≠ [] ∧ hasPref atSp change = false then
          match cur with
          | some s => prbGo rest (some { name := s.name, changes := s.changes ++ [change] })
          | none =>
            let r := prbGo rest none
            (r.1, change :: r.2)
        else prbGo rest cur
      else prbGo rest cur

/-- Go `parseReleaseBody` of the `aic` variant. -/
def parseReleaseBody (body : Str) : List Section × List Str :=
  prbGo (splitNL body) none

/-- The literal `"v"`. -/
def vPref : Str := ['v']

/-- The literal `"rust-v"`. -/
def rustPref : Str := ['r', 'u', 's', 't', '-', 'v']

/-- Tag normalization in Go `fetchGitHubReleases`:
`ver = strings.TrimPrefix(ver, "v"); ver = strings.TrimPrefix(ver, "rust-v")`. -/
def normalizeTag (tag : Str) : Str :=
  stripPref rustPref (stripPref vPref tag)

/-- One decoded element of the GitHub releases JSON array, with
`published_at` already parsed as a timestamp (Go ignores the parse error of
`time.Parse`, leaving the zero time, modelled as `0`). -/
structure Release where
  tagName : Str
  body : Str
  publishedAt : Nat := 0
  deriving DecidableEq, Repr

/-- The entry-building loop of Go `fetchGitHubReleases` (the `aic` variant),
applied to the decoded releases array. -/
def fetchGitHubReleasesEntries (rels : List Release) : List ChangelogEntry :=
  rels.map fun rel =>
    let ver := normalizeTag rel.tagName
    let parsed := parseReleaseBody rel.body
    { version := ver, releasedAt := rel.publishedAt,
      sections := parsed.1, changes := parsed.2 }

/-- The post-parse phase of Go `fetchClaudeChangelog`: given the parsed
entries and the result of `fetchGitHubFileLastCommitDate` (`0` when that
call fails at any step), returns the final entries together with whether the
commit-date fallback was attempted (i.e. whether the HTTP call was made). -/
def fetchClaudeProcess (entries : List ChangelogEntry) (commitDate : Nat) :
    List ChangelogEntry × Bool :=
  match entries with
  | [] => ([], false)
  | e :: rest =>
    if e.releasedAt = 0 then
      if commitDate ≠ 0 then ({ e with releasedAt := commitDate } :: rest, true)
      else (e :: rest, true)
    else (e :: rest, false)

/-- One source's outcome in the aggregate commands: the display name and
either the fetched entries (`some`) or a fetch error (`none`). -/
structure SourceResult where
  display : Str
  res : Option (List ChangelogEntry)
  deriving DecidableEq, Repr

/-- The collection phase of Go `runLatestCommand`: a failing source yields
no entry; a successful source contributes its newest entry only, stamped
with the display name, and kept only when its timestamp is nonzero and
strictly after `cutoff` (which the Go code sets to `time.Now() - 24h`). -/
def latestCollect (cutoff : Nat) (rs : List SourceResult) : List ChangelogEntry :=
  rs.filterMap fun r =>
    match r.res with
    | none => none
    | some [] => none
    | some (e :: _) =>
      let stamped := { e with source := r.display }
      if stamped.releasedAt ≠ 0 ∧ cutoff < stamped.releasedAt then some stamped
      else none

/-- Sort order of Go `runLatestCommand`: release time descending. -/
def latRel (a b : ChangelogEntry) : Prop := b.releasedAt ≤ a.releasedAt

instance : DecidableRel latRel := fun a b => Nat.decLe _ _

instance : IsTotal ChangelogEntry latRel :=
  ⟨fun a b => (Nat.le_total b.releasedAt a.releasedAt).elim Or.inl Or.inr⟩

instance : IsTrans ChangelogEntry latRel :=
  ⟨fun _ _ _ h1 h2 => Nat.le_trans h2 h1⟩

/-- The recent-entry list printed by Go `runLatestCommand`. -/
def runLatestEntries (cutoff : Nat) (rs : List SourceResult) : List ChangelogEntry :=
  List.insertionSort latRel (latestCollect cutoff rs)

/-- The warnings emitted by Go `runLatestCommand`: one per failed source. -/
def latestWarnings (rs : List SourceResult) : List Str :=
  rs.filterMap fun r =>
    match r.res with
    | none => some r.display
    | some _ => none

/-- The fallback message of Go `runLatestCommand` when nothing is recent. -/
def latestMessage (cutoff : Nat) (rs : List SourceResult) : Option String :=
  if runLatestEntries cutoff rs = [] then some ("No releases in the last 24 hours.")
  else none

/-- Outcome of single-source mode in Go `main` for a given fetch result. -/
inductive SingleOutcome where
  | fetchFailure
  | emptyFailure
  | success
  deriving DecidableEq, Repr

/-- Go `main` after selecting a source: a fetch error and an empty entry
list are both fatal (exit 1). -/
def singleModeOutcome : Option (List ChangelogEntry) → SingleOutcome
  | none => SingleOutcome.fetchFailure
  | some [] => SingleOutcome.emptyFailure
  | some (_ :: _) => SingleOutcome.success

/-- Go `formatRelativeTime`: `now` and `t` in nanoseconds, `t = 0` being the
zero time.  Durations divide as Go durations do (truncation toward zero). -/
def formatRelativeTime (now t : Nat) : String :=
  if t = 0 then "-"
  else
    let d : Int := (now : Int) - (t : Int)
    let minutes := d.tdiv 60000000000
    let hours := d.tdiv 3600000000000
    let days := hours.tdiv 24
    let weeks := days.tdiv 7
    let months := days.tdiv 30
    if minutes < 60 then toString minutes ++ "m ago"
    else if hours < 24 then toString hours ++ "h ago"
    else if days < 7 then toString days ++ "d ago"
    else if weeks < 4 then toString weeks ++ "w ago"
    else toString months ++ "mo ago"

/-- The collection loop of Go `calculateAvgReleaseFreq`: gather dated
entries, breaking once ten are collected (`k` counts those collected). -/
def collectValidAux : List ChangelogEntry → Nat → List ChangelogEntry
  | [], _ => []
  | e :: rest, k =>
    if e.releasedAt ≠ 0 then
      if 10 ≤ k + 1 then [e] else e :: collectValidAux rest (k + 1)
    else
      if 10 ≤ k then [] else collectValidAux rest k

/-- The dated entries considered by Go `calculateAvgReleaseFreq`. -/
def collectValid (entries : List ChangelogEntry) : List ChangelogEntry :=
  collectValidAux entries 0

/-- Sum of consecutive release intervals in Go `calculateAvgReleaseFreq`. -/
def totalIntervals : List ChangelogEntry → Int
  | [] => 0
  | [_] => 0
  | a :: b :: rest =>
    ((a.releasedAt : Int) - (b.releasedAt : Int)) + totalIntervals (b :: rest)

/-- The average interval computed by Go `calculateAvgReleaseFreq` (meaningful
when at least two dated entries exist). -/
def avgOf (entries : List ChangelogEntry) : Int :=
  let valid := collectValid entries
  (totalIntervals valid).tdiv ((valid.length : Int) - 1)

/-- Go `calculateAvgReleaseFreq`. -/
def calculateAvgReleaseFreq (entries : List ChangelogEntry) : String :=
  let valid := collectValid entries
  if valid.length < 2 then "-"
  else
    let avg := avgOf entries
    let hours := avg.tdiv 3600000000000
    let days := hours.tdiv 24
    let weeks := days.tdiv 7
    let months := days.tdiv 30
    if days < 1 then "~" ++ toString hours ++ "h"
    else if days < 7 then "~" ++ toString days ++ "d"
    else if weeks < 4 then "~" ++ toString weeks ++ "w"
    else "~" ++ toString months ++ "mo"

/-- One row of the Go `status` view (struct `statusEntry`). -/
structure StatusEntry where
  name : Str
  version : Str
  previousVersion : Str
  updatedAgo : String
  updatedRecently : Bool
  avgReleaseFreq : String
  releasedAt : Nat
  deriving DecidableEq, Repr

/-- Row construction in Go `runStatusCommand` for one successful nonempty
source (`now` is the invocation time, `cutoff = now - 24h`). -/
def buildStatusEntry (now cutoff : Nat) (display : Str)
    (e0 : ChangelogEntry) (rest : List ChangelogEntry) : StatusEntry :=
  { name := display,
    version := e0.version,
    previousVersion :=
      match rest with
      | [] => ['-']
      | e1 :: _ => e1.version,
    updatedAgo := if e0.releasedAt ≠ 0 then formatRelativeTime now e0.releasedAt else "-",
    updatedRecently := e0.releasedAt ≠ 0 && decide (cutoff < e0.releasedAt),
    avgReleaseFreq := calculateAvgReleaseFreq (e0 :: rest),
    releasedAt := e0.releasedAt }

/-- Go string comparison `a < b` (byte-wise lexicographic; on UTF-8 this is
code-point-wise lexicographic). -/
def goStrLt : Str → Str → Bool
  | [], [] => false
  | [], _ :: _ => true
  | _ :: _, [] => false
  | a :: as, b :: bs =>
    if a.toNat < b.toNat then true
    else if b.toNat < a.toNat then false
    else goStrLt as bs

/-- The `less` closure of `sort.Slice` in Go `runStatusCommand`. -/
def statusLess (a b : StatusEntry) : Bool :=
  if a.releasedAt = 0 ∧ b.releasedAt = 0 then goStrLt a.name b.name
  else if a.releasedAt = 0 then false
  else if b.releasedAt = 0 then true
  else decide (b.releasedAt < a.releasedAt)

/-- The (non-strict) order realized by the status sort. -/
def statRel (a b : StatusEntry) : Prop := statusLess b a = false

instance : DecidableRel statRel := fun a b =>
  instDecidableEqBool (statusLess b a) false

/-- The sorted status rows of Go `runStatusCommand`. -/
def sortStatus (l : List StatusEntry) : List StatusEntry :=
  List.insertionSort statRel l

/-- The lines of a document together with their start positions, as split on
`'\n'`; the first line is reported at position `p`.  Specification-side
notion used to state which document lines lie inside a span. -/
def linesPos : Str → Nat → List (Nat × Str)
  | [], p => [(p, [])]
  | c :: rest, p =>
    if c = '\n' then (p, []) :: linesPos rest (p + 1)
    else
      match linesPos rest (p + 1) with
      | [] => [(p, [c])]
      | (_, l) :: ls => (p, c :: l) :: ls

/-- Specification-side change extraction for one entry, following the spec's
words: the `"- "`-prefixed trimmed document lines lying entirely between
positions `a` and `b` of the document, marker stripped, in document order. -/
def specChangesBetween (content : Str) (a b : Nat) : List Str :=
  (linesPos content 0).filterMap fun pl =>
    if a ≤ pl.1 ∧ pl.1 + pl.2.length ≤ b then dashLineOf pl.2 else none

/-- Specification-side description of the markdown changelog parser: one
entry per match in document order, the version being the capture group and
the changes the dash lines strictly between the end of this header and the
start of the next (end of document for the last). -/
def specEntries (content : Str) : List GoMatch → List ChangelogEntry
  | [] => []
  | m :: rest =>
    let contentEnd :=
      match rest with
      | [] => content.length
      | m2 :: _ => m2.start
    { version := sliceStr content m.capStart m.capStop,
      changes := specChangesBetween content m.stop contentEnd }
      :: specEntries content rest

/-- Well-formedness of one regex match for a `(?m)^...$`-anchored pattern:
ordered indices within bounds, the match starting at a line start and ending
at a line end. -/
def matchWF (content : Str) (m : GoMatch) : Bool :=
  decide (m.start ≤ m.capStart) && decide (m.capStart ≤ m.capStop) &&
  decide (m.capStop ≤ m.stop) && decide (m.stop ≤ content.length) &&
  (decide (m.start = 0) || decide ((content.drop (m.start - 1)).head? = some '\n')) &&
  (decide (m.stop = content.length) || decide ((content.drop m.stop).head? = some '\n'))

/-- Well-formedness of a `FindAllStringSubmatchIndex` result: each match
well-formed, consecutive matches non-overlapping and in document order. -/
def matchesWF : Str → List GoMatch → Bool
  | _, [] => true
  | content, [m] => matchWF content m
  | content, m :: m2 :: rest =>
    matchWF content m && decide (m.stop ≤ m2.start) && matchesWF content (m2 :: rest)

/-- Specification-side relative-time buckets, phrased as thresholds on the
elapsed duration `d` in nanoseconds. -/
def relTimeSpec (d : Nat) : String :=
  if d < 3600000000000 then toString (d / 60000000000) ++ "m ago"
  else if d < 86400000000000 then toString (d / 3600000000000) ++ "h ago"
  else if d < 604800000000000 then toString (d / 86400000000000) ++ "d ago"
  else if d < 2419200000000000 then toString (d / 604800000000000) ++ "w ago"
  else toString (d / 2592000000000000) ++ "mo ago"

/-- Specification-side cadence buckets: same boundaries as `relTimeSpec` for
durations of at least one hour, but everything below 24 hours renders as
hours (there is no minutes bucket). -/
def cadenceSpec (d : Nat) : String :=
  if d < 86400000000000 then "~" ++ toString (d / 3600000000000) ++ "h"
  else if d < 604800000000000 then "~" ++ toString (d / 86400000000000) ++ "d"
  else if d < 2419200000000000 then "~" ++ toString (d / 604800000000000) ++ "w"
  else "~" ++ toString (d / 2592000000000000) ++ "mo"

/-- Specification-side row order for the status table: dated rows before
undated ones, dated rows by time descending, undated rows by display name
ascending. -/
def statusSpecLE (x y : StatusEntry) : Prop :=
  (x.releasedAt ≠ 0 ∧ y.releasedAt = 0) ∨
  (x.releasedAt ≠ 0 ∧ y.releasedAt ≠ 0 ∧ y.releasedAt ≤ x.releasedAt) ∨
  (x.releasedAt = 0 ∧ y.releasedAt = 0 ∧ goStrLt y.name x.name = false)

def c1Body : Str :=
  ("## TUI\n- Added X\n## ").toList ++ wcName ++ ("\n- Ignore me\n").toList

def c2Content : Str := ("## 1.2.0\n- Fixed bug\n## 1.1.0\n- Initial\n").toList

def c2Matches : List GoMatch := [⟨0, 8, 3, 8⟩, ⟨21, 29, 24, 29⟩]

def c3Body : Str := ("## A\n- x\n").toList

def c4Tag : Str := ("vrust-v1.0.0").toList

def c6Entries : List ChangelogEntry :=
  [{ version := ['a'], releasedAt := 1800000000001 },
   { version := ['b'], releasedAt := 1 }]

def c6GoodEntries : List ChangelogEntry :=
  [{ version := ['a'], releasedAt := 7200000000005 },
   { version := ['b'], releasedAt := 5 }]

def c7RowA : StatusEntry :=
  { name := ("alpha").toList, version := ['3'], previousVersion := ['-'],
    updatedAgo := "-", updatedRecently := false, avgReleaseFreq := "-",
    releasedAt := 30 }

def c7RowB : StatusEntry :=
  { name := ("beta").toList, version := ['2'], previousVersion := ['-'],
    updatedAgo := "-", updatedRecently := false, avgReleaseFreq := "-",
    releasedAt := 20 }

def c7RowC : StatusEntry :=
  { name := ("gamma").toList, version := ['1'], previousVersion := ['-'],
    updatedAgo := "-", updatedRecently := false, avgReleaseFreq := "-",
    releasedAt := 10 }

def c7Rows : List StatusEntry := [c7RowB, c7RowC, c7RowA]

def c7RowUa : StatusEntry :=
  { name := ("alpha-undated").toList, version := ['0'], previousVersion := ['-'],
    updatedAgo := "-", updatedRecently := false, avgReleaseFreq := "-",
    releasedAt := 0 }

def c7RowUz : StatusEntry :=
  { name := ("zeta-undated").toList, version := ['0'], previousVersion := ['-'],
    updatedAgo := "-", updatedRecently := false, avgReleaseFreq := "-",
    releasedAt := 0 }

def c7Mixed : List StatusEntry := [c7RowUz, c7RowA, c7RowUa]

def c9Rels : List Release :=
  [{ tagName := ("v1.0").toList, body := [], publishedAt := 1 },
   { tagName := ("1.0").toList, body := [], publishedAt := 1 }]

def c9GoodRels : List Release :=
  [{ tagName := ("v1.0").toList, body := [], publishedAt := 1 },
   { tagName := ("rust-v2.0").toList, body := [], publishedAt := 1 }]

lemma splitNL_ne_nil (s : Str) : splitNL s ≠ [] := by
  induction s with
  | nil => simp [splitNL]
  | cons c rest ih =>
    by_cases hc : c = '\n'
    · simp [splitNL, hc]
    · simp only [splitNL, if_neg hc]
      cases h : splitNL rest with
      | nil => exact absurd h ih
      | cons hd tl => simp

lemma linesPos_ne_nil (s : Str) (p : Nat) : linesPos s p ≠ [] := by
  induction s generalizing p with
  | nil => simp [linesPos]
  | cons c rest ih =>
    by_cases hc : c = '\n'
    · simp [linesPos, hc]
    · simp only [linesPos, if_neg hc]
      cases h : linesPos rest (p + 1) with
      | nil => exact absurd h (ih (p + 1))
      | cons hd tl => cases hd; simp

lemma splitNL_append_nl (A B : Str) :
    splitNL (A ++ '\n' :: B) = splitNL A ++ splitNL B := by
  induction A with
  | nil => simp [splitNL]
  | cons c rest ih =>
    by_cases hc : c = '\n'
    · simp [splitNL, hc, ih]
    · simp only [List.cons_append, splitNL, if_neg hc, List.append_eq]
      rw [ih]
      cases h : splitNL rest with
      | nil => exact absurd h (splitNL_ne_nil _)
      | cons hd tl => simp

lemma linesPos_append_nl (A B : Str) (p : Nat) :
    linesPos (A ++ '\n' :: B) p = linesPos A p ++ linesPos B (p + A.length + 1) := by
  induction A generalizing p with
  | nil => simp [linesPos]
  | cons c rest ih =>
    by_cases hc : c = '\n'
    · subst hc
      simp only [List.cons_append, linesPos, if_pos rfl, List.length_cons, List.append_eq]
      rw [ih]
      have h2 : p + 1 + rest.length + 1 = p + (rest.length + 1) + 1 := by omega
      rw [h2]
      simp
    · simp only [List.cons_append, linesPos, if_neg hc, List.length_cons, List.append_eq]
      rw [ih]
      cases h : linesPos rest (p + 1) with
      | nil => exact absurd h (linesPos_ne_nil _ _)
      | cons hd tl =>
        cases hd with
        | mk q l =>
          have h2 : p + 1 + rest.length + 1 = p + (rest.length + 1) + 1 := by omega
          rw [h2]
          simp

lemma linesPos_bounds :
    ∀ (s : Str) (p q : Nat) (l : Str), (q, l) ∈ linesPos s p →
      p ≤ q ∧ q + l.length ≤ p + s.length := by
  intro s
  induction s with
  | nil =>
    intro p q l h
    simp [linesPos] at h
    obtain ⟨rfl, rfl⟩ := h
    simp
  | cons c rest ih =>
    intro p q l h
    by_cases hc : c = '\n'
    · subst hc
      simp only [linesPos, reduceIte, List.mem_cons, Prod.mk.injEq] at h
      rcases h with ⟨rfl, rfl⟩ | h
      · simp only [List.length_nil, List.length_cons]
        omega
      · have := ih (p + 1) q l h
        simp only [List.length_cons]
        omega
    · simp only [linesPos, if_neg hc] at h
      cases hlp : linesPos rest (p + 1) with
      | nil => exact absurd hlp (linesPos_ne_nil _ _)
      | cons hd tl =>
        cases hd with
        | mk q0 l0 =>
          rw [hlp] at h
          simp only [List.mem_cons, Prod.mk.injEq] at h
          rcases h with ⟨rfl, rfl⟩ | h
          · have hb := ih (q + 1) q0 l0 (hlp ▸ List.mem_cons_self _ _)
            simp only [List.length_cons] at hb ⊢
            omega
          · have := ih (p + 1) q l (hlp ▸ List.mem_cons_of_mem _ h)
            simp only [List.length_cons]
            omega

lemma map_snd_linesPos (s : Str) (p : Nat) :
    (linesPos s p).map Prod.snd = splitNL s := by
  induction s generalizing p with
  | nil => simp [linesPos, splitNL]
  | cons c rest ih =>
    by_cases hc : c = '\n'
    · simp [linesPos, splitNL, hc, ih]
    · simp only [linesPos, splitNL, if_neg hc]
      cases h : linesPos rest (p + 1) with
      | nil => exact absurd h (linesPos_ne_nil _ _)
      | cons hd tl =>
        cases hd with
        | mk q l =>
          have := ih (p + 1)
          rw [h] at this
          simp only [List.map_cons] at this
          rw [← this]
          simp

lemma dashLineOf_nil : dashLineOf [] = none := rfl

lemma parseChanges_nil : parseChanges [] = [] := rfl

lemma parseChanges_cons_nl (X : Str) : parseChanges ('\n' :: X) = parseChanges X := by
  have h : splitNL ('\n' :: X) = [] :: splitNL X := by simp [splitNL]
  rw [parseChanges, h, List.filterMap_cons, dashLineOf_nil]
  rfl

lemma parseChanges_append_nl (C : Str) : parseChanges (C ++ ['\n']) = parseChanges C := by
  have h : C ++ ['\n'] = C ++ '\n' :: ([] : Str) := rfl
  rw [parseChanges, h, splitNL_append_nl, List.filterMap_append]
  have h2 : List.filterMap dashLineOf (splitNL []) = [] := rfl
  rw [h2, List.append_nil]
  rfl

lemma parseChanges_slice_eq_spec (content : Str) (a b : Nat)
    (hab : a ≤ b) (hbl : b ≤ content.length)
    (ha : a = content.length ∨ (content.drop a).head? = some '\n')
    (hb : b = content.length ∨ b = a ∨ (content.drop (b - 1)).head? = some '\n') :
    parseChanges (sliceStr content a b) = specChangesBetween content a b := by
  by_cases hba : b = a
  · subst hba
    have hs : sliceStr content b b = [] :=
      List.drop_eq_nil_of_le (by rw [List.length_take]; omega)
    rw [hs, parseChanges_nil]
    symm
    rw [specChangesBetween, List.filterMap_eq_nil_iff]
    intro pl hpl
    obtain ⟨q, l⟩ := pl
    have hbd := linesPos_bounds content 0 q l hpl
    by_cases hcond : b ≤ q ∧ q + l.length ≤ b
    · have hl : l = [] := List.eq_nil_of_length_eq_zero (by omega)
      subst hl
      simp [hcond, dashLineOf_nil]
    · simp [hcond]
  · have halt : a < b := Nat.lt_of_le_of_ne hab (fun h => hba h.symm)
    have hane : a ≠ content.length := by omega
    have ha2 : (content.drop a).head? = some '\n' := ha.resolve_left hane
    obtain ⟨B, hdB⟩ := List.head?_eq_some_iff.1 ha2
    have hA : content = content.take a ++ '\n' :: B := by
      conv_lhs => rw [← List.take_append_drop a content]
      rw [hdB]
    have hAl : (content.take a).length = a := by
      rw [List.length_take, Nat.min_eq_left (by omega : a ≤ content.length)]
    have hlenc : content.length = a + 1 + B.length := by
      have h3 := congrArg List.length hA
      simp only [List.length_append, List.length_cons, hAl] at h3
      omega
    have hslice : sliceStr content a b = '\n' :: B.take (b - a - 1) := by
      simp only [sliceStr]
      conv_lhs => rw [hA]
      rw [List.take_append_eq_append_take,
        List.take_of_length_le (by rw [hAl]; omega), hAl]
      have hm : b - a = (b - a - 1) + 1 := by omega
      rw [hm, List.take_succ_cons, List.drop_append_eq_append_drop,
        List.drop_eq_nil_of_le (by rw [hAl]), hAl, Nat.sub_self, List.drop_zero,
        List.nil_append]
      have h8 : b - a - 1 + 1 - 1 = b - a - 1 := by omega
      rw [h8]
    have hlp : linesPos content 0 = linesPos (content.take a) 0 ++ linesPos B (a + 1) := by
      conv_lhs => rw [hA]
      rw [linesPos_append_nl, hAl]
      have h4 : 0 + a + 1 = a + 1 := by omega
      rw [h4]
    have hfirst : (linesPos (content.take a) 0).filterMap
        (fun pl => if a ≤ pl.1 ∧ pl.1 + pl.2.length ≤ b then dashLineOf pl.2 else none) = [] := by
      rw [List.filterMap_eq_nil_iff]
      intro pl hpl
      obtain ⟨q, l⟩ := pl
      have hbd := linesPos_bounds (content.take a) 0 q l hpl
      rw [hAl] at hbd
      by_cases hcond : a ≤ q ∧ q + l.length ≤ b
      · have hl : l = [] := List.eq_nil_of_length_eq_zero (by omega)
        subst hl
        simp [hcond, dashLineOf_nil]
      · simp [hcond]
    have hspec : specChangesBetween content a b = (linesPos B (a + 1)).filterMap
        (fun pl => if a ≤ pl.1 ∧ pl.1 + pl.2.length ≤ b then dashLineOf pl.2 else none) := by
      rw [specChangesBetween, hlp, List.filterMap_append, hfirst, List.nil_append]
    rw [hslice, parseChanges_cons_nl, hspec]
    by_cases hblen : b = content.length
    · have hBl : b - a - 1 = B.length := by omega
      rw [hBl, List.take_length]
      have hcongr : (linesPos B (a + 1)).filterMap
          (fun pl => if a ≤ pl.1 ∧ pl.1 + pl.2.length ≤ b then dashLineOf pl.2 else none) =
          (linesPos B (a + 1)).filterMap (fun pl => dashLineOf pl.2) := by
        refine List.filterMap_congr ?_
        intro pl hpl
        obtain ⟨q, l⟩ := pl
        have hbd := linesPos_bounds B (a + 1) q l hpl
        have hcond : a ≤ q ∧ q + l.length ≤ b := by constructor <;> omega
        simp [hcond]
      rw [hcongr]
      symm
      show List.filterMap (dashLineOf ∘ Prod.snd) (linesPos B (a + 1)) = parseChanges B
      rw [← List.filterMap_map Prod.snd dashLineOf, map_snd_linesPos]
      rfl
    · have hb3 : (content.drop (b - 1)).head? = some '\n' := by
        rcases hb with hb1 | hb2 | hb3
        · exact absurd hb1 hblen
        · exact absurd hb2 hba
        · exact hb3
      by_cases ha1 : b = a + 1
      · have h0 : b - a - 1 = 0 := by omega
        rw [h0, List.take_zero, parseChanges_nil]
        symm
        rw [List.filterMap_eq_nil_iff]
        intro pl hpl
        obtain ⟨q, l⟩ := pl
        have hbd := linesPos_bounds B (a + 1) q l hpl
        by_cases hcond : a ≤ q ∧ q + l.length ≤ b
        · have hl : l = [] := List.eq_nil_of_length_eq_zero (by omega)
          subst hl
          simp [hcond, dashLineOf_nil]
        · simp [hcond]
      · have h2 : a + 1 < b := by omega
        have hdropB : (B.drop (b - a - 2)).head? = some '\n' := by
          have e1 : content.drop (b - 1) = B.drop (b - a - 2) := by
            conv_lhs => rw [hA]
            rw [List.drop_append_eq_append_drop,
              List.drop_eq_nil_of_le (by rw [hAl]; omega), List.nil_append, hAl]
            have h5 : b - 1 - a = (b - a - 2) + 1 := by omega
            rw [h5, List.drop_succ_cons]
          rw [← e1]
          exact hb3
        obtain ⟨D, hD⟩ := List.head?_eq_some_iff.1 hdropB
        have hBdec : B = B.take (b - a - 2) ++ '\n' :: D := by
          conv_lhs => rw [← List.take_append_drop (b - a - 2) B]
          rw [hD]
        have hCl : (B.take (b - a - 2)).length = b - a - 2 := by
          rw [List.length_take, Nat.min_eq_left (by omega : b - a - 2 ≤ B.length)]
        have htake : B.take (b - a - 1) = B.take (b - a - 2) ++ ['\n'] := by
          conv_lhs => rw [hBdec]
          rw [List.take_append_eq_append_take,
            List.take_of_length_le (by rw [hCl]; omega), hCl]
          have h6 : b - a - 1 - (b - a - 2) = 0 + 1 := by omega
          rw [h6, List.take_succ_cons, List.take_zero]
        rw [htake, parseChanges_append_nl]
        have hlpB : linesPos B (a + 1) =
            linesPos (B.take (b - a - 2)) (a + 1) ++ linesPos D b := by
          conv_lhs => rw [hBdec]
          rw [linesPos_append_nl, hCl]
          have h7 : a + 1 + (b - a - 2) + 1 = b := by omega
          rw [h7]
        rw [hlpB, List.filterMap_append]
        have hDpart : (linesPos D b).filterMap
            (fun pl => if a ≤ pl.1 ∧ pl.1 + pl.2.length ≤ b then dashLineOf pl.2 else none) = [] := by
          rw [List.filterMap_eq_nil_iff]
          intro pl hpl
          obtain ⟨q, l⟩ := pl
          have hbd := linesPos_bounds D b q l hpl
          by_cases hcond : a ≤ q ∧ q + l.length ≤ b
          · have hl : l = [] := List.eq_nil_of_length_eq_zero (by omega)
            subst hl
            simp [hcond, dashLineOf_nil]
          · simp [hcond]
        have hCpart : (linesPos (B.take (b - a - 2)) (a + 1)).filterMap
            (fun pl => if a ≤ pl.1 ∧ pl.1 + pl.2.length ≤ b then dashLineOf pl.2 else none) =
            parseChanges (B.take (b - a - 2)) := by
          have hcongr : (linesPos (B.take (b - a - 2)) (a + 1)).filterMap
              (fun pl => if a ≤ pl.1 ∧ pl.1 + pl.2.length ≤ b then dashLineOf pl.2 else none) =
              (linesPos (B.take (b - a - 2)) (a + 1)).filterMap (fun pl => dashLineOf pl.2) := by
            refine List.filterMap_congr ?_
            intro pl hpl
            obtain ⟨q, l⟩ := pl
            have hbd := linesPos_bounds (B.take (b - a - 2)) (a + 1) q l hpl
            rw [hCl] at hbd
            have hcond : a ≤ q ∧ q + l.length ≤ b := by constructor <;> omega
            simp [hcond]
          rw [hcongr]
          show List.filterMap (dashLineOf ∘ Prod.snd)
              (linesPos (B.take (b - a - 2)) (a + 1)) = parseChanges (B.take (b - a - 2))
          rw [← List.filterMap_map Prod.snd dashLineOf, map_snd_linesPos]
          rfl
        rw [hDpart, hCpart, List.append_nil]

lemma matchWF_spec (content : Str) (m : GoMatch) (h : matchWF content m = true) :
    m.start ≤ m.capStart ∧ m.capStart ≤ m.capStop ∧ m.capStop ≤ m.stop ∧
    m.stop ≤ content.length ∧
    (m.start = 0 ∨ (content.drop (m.start - 1)).head? = some '\n') ∧
    (m.stop = content.length ∨ (content.drop m.stop).head? = some '\n') := by
  simp only [matchWF, Bool.and_eq_true, Bool.or_eq_true, decide_eq_true_eq] at h
  tauto

lemma matchesWF_head (content : Str) (m : GoMatch) (ms : List GoMatch)
    (h : matchesWF content (m :: ms) = true) : matchWF content m = true := by
  cases ms with
  | nil => simpa [matchesWF] using h
  | cons m2 rest =>
    simp only [matchesWF, Bool.and_eq_true] at h
    exact h.1.1

lemma pmc_eq_specEntries (content : Str) :
    ∀ ms : List GoMatch, matchesWF content ms = true →
      parseMarkdownChangelog content ms = specEntries content ms := by
  intro ms
  induction ms with
  | nil => intro _; rfl
  | cons m rest ih =>
    intro h
    cases rest with
    | nil =>
      have hm : matchWF content m = true := by simpa [matchesWF] using h
      obtain ⟨h1, h2, h3, h4, h5, h6⟩ := matchWF_spec content m hm
      have hch := parseChanges_slice_eq_spec content m.stop content.length h4
        (Nat.le_refl _) h6 (Or.inl rfl)
      simp only [parseMarkdownChangelog, specEntries]
      rw [hch]
    | cons m2 rest2 =>
      have hsplit : matchWF content m = true ∧ m.stop ≤ m2.start ∧
          matchesWF content (m2 :: rest2) = true := by
        simpa [matchesWF, Bool.and_eq_true, decide_eq_true_eq, and_assoc] using h
      obtain ⟨hm, hmm2, hrest⟩ := hsplit
      obtain ⟨h1, h2, h3, h4, h5, h6⟩ := matchWF_spec content m hm
      obtain ⟨g1, g2, g3, g4, g5, g6⟩ :=
        matchWF_spec content m2 (matchesWF_head content m2 rest2 hrest)
      have hch := parseChanges_slice_eq_spec content m.stop m2.start hmm2
        (by omega) h6 (by
          rcases g5 with g5l | g5r
          · right; left; omega
          · right; right; exact g5r)
      have e1 : parseMarkdownChangelog content (m :: m2 :: rest2) =
          { version := sliceStr content m.capStart m.capStop,
            changes := parseChanges (sliceStr content m.stop m2.start) }
          :: parseMarkdownChangelog content (m2 :: rest2) := rfl
      have e2 : specEntries content (m :: m2 :: rest2) =
          { version := sliceStr content m.capStart m.capStop,
            changes := specChangesBetween content m.stop m2.start }
          :: specEntries content (m2 :: rest2) := rfl
      rw [e1, e2, hch, ih hrest]

lemma specEntries_length (content : Str) :
    ∀ ms : List GoMatch, (specEntries content ms).length = ms.length := by
  intro ms
  induction ms with
  | nil => rfl
  | cons m rest ih =>
    simp only [specEntries, List.length_cons, ih]

lemma mem_flushSec_ok (cur : Option Section) (hcur : ∀ s, cur = some s → s.name ≠ wcName)
    (sec : Section) (hsec : sec ∈ flushSec cur) :
    sec.changes ≠ [] ∧ sec.name ≠ wcName := by
  cases cur with
  | none => simp [flushSec] at hsec
  | some s =>
    by_cases hch : s.changes = []
    · simp [flushSec, hch] at hsec
    · simp only [flushSec, if_neg hch, List.mem_singleton] at hsec
      subst hsec
      exact ⟨hch, hcur _ rfl⟩

lemma prbGo_sections_ok :
    ∀ (lines : List Str) (cur : Option Section),
      (∀ s, cur = some s → s.name ≠ wcName) →
      ∀ sec ∈ (prbGo lines cur).1, sec.changes ≠ [] ∧ sec.name ≠ wcName := by
  intro lines cur
  induction lines, cur using prbGo.induct with
  | case1 cur =>
    intro hcur sec hsec
    simp only [prbGo] at hsec
    exact mem_flushSec_ok cur hcur sec hsec
  | case2 line rest cur trimmed nm hmh headerName hwc ih =>
    intro hcur sec hsec
    have hmh2 : matchHeader (trimSpace line) = some nm := hmh
    have hwc2 : trimSpace nm = wcName := hwc
    simp only [prbGo, hmh2, if_pos hwc2] at hsec
    exact ih hcur sec hsec
  | case3 line rest cur trimmed nm hmh headerName hwc ih =>
    intro hcur sec hsec
    have hmh2 : matchHeader (trimSpace line) = some nm := hmh
    have hwc2 : ¬ trimSpace nm = wcName := hwc
    simp only [prbGo, hmh2, if_neg hwc2, List.mem_append] at hsec
    rcases hsec with hsec | hsec
    · exact mem_flushSec_ok cur hcur sec hsec
    · refine ih ?_ sec hsec
      intro s hs
      injection hs with h
      rw [← h]
      exact hwc2
  | case4 line rest trimmed hmh hbul change hcond s ih =>
    intro hcur sec hsec
    have hmh2 : matchHeader (trimSpace line) = none := hmh
    have hbul2 : (hasPref dashSp (trimSpace line) || hasPref starSp (trimSpace line)) = true := hbul
    have hcond2 : stripPref starSp (stripPref dashSp (trimSpace line)) ≠ [] ∧
        hasPref atSp (stripPref starSp (stripPref dashSp (trimSpace line))) = false := hcond
    simp only [prbGo, hmh2] at hsec
    rw [if_pos hbul2, if_pos hcond2] at hsec
    refine ih ?_ sec hsec
    intro s2 hs2
    injection hs2 with h
    rw [← h]
    exact hcur s rfl
  | case5 line rest trimmed hmh hbul change hcond ih =>
    intro hcur sec hsec
    have hmh2 : matchHeader (trimSpace line) = none := hmh
    have hbul2 : (hasPref dashSp (trimSpace line) || hasPref starSp (trimSpace line)) = true := hbul
    have hcond2 : stripPref starSp (stripPref dashSp (trimSpace line)) ≠ [] ∧
        hasPref atSp (stripPref starSp (stripPref dashSp (trimSpace line))) = false := hcond
    simp only [prbGo, hmh2] at hsec
    rw [if_pos hbul2, if_pos hcond2] at hsec
    exact ih (fun s hs => Option.noConfusion hs) sec hsec
  | case6 line rest cur trimmed hmh hbul change hcond ih =>
    intro hcur sec hsec
    have hmh2 : matchHeader (trimSpace line) = none := hmh
    have hbul2 : (hasPref dashSp (trimSpace line) || hasPref starSp (trimSpace line)) = true := hbul
    have hcond2 : ¬ (stripPref starSp (stripPref dashSp (trimSpace line)) ≠ [] ∧
        hasPref atSp (stripPref starSp (stripPref dashSp (trimSpace line))) = false) := hcond
    simp only [prbGo, hmh2] at hsec
    rw [if_pos hbul2, if_neg hcond2] at hsec
    exact ih hcur sec hsec
  | case7 line rest cur trimmed hmh hbul ih =>
    intro hcur sec hsec
    have hmh2 : matchHeader (trimSpace line) = none := hmh
    have hbul2 : ¬ (hasPref dashSp (trimSpace line) || hasPref starSp (trimSpace line)) = true := hbul
    simp only [prbGo, hmh2] at hsec
    rw [if_neg hbul2] at hsec
    exact ih hcur sec hsec

lemma hasPref_v_of_rust (t : Str) (h : hasPref rustPref t = true) :
    hasPref vPref t = false := by
  cases t with
  | nil => simp [hasPref, rustPref] at h
  | cons c cs =>
    have hc : c = 'r' := by
      by_contra hne
      rw [show rustPref = 'r' :: ['u', 's', 't', '-', 'v'] from rfl] at h
      simp only [hasPref, Bool.and_eq_true, beq_iff_eq] at h
      exact hne h.1.symm
    subst hc
    simp [hasPref, vPref]

lemma ghEntries_map_version (rels : List Release) :
    (fetchGitHubReleasesEntries rels).map ChangelogEntry.version =
      rels.map fun r => normalizeTag r.tagName := by
  rw [fetchGitHubReleasesEntries, List.map_map]
  rfl

lemma pmc_map_version (content : Str) :
    ∀ ms : List GoMatch,
      (parseMarkdownChangelog content ms).map ChangelogEntry.version =
        ms.map fun m => sliceStr content m.capStart m.capStop := by
  intro ms
  induction ms with
  | nil => rfl
  | cons m rest ih =>
    cases rest with
    | nil => simp [parseMarkdownChangelog]
    | cons m2 rest2 =>
      have e1 : parseMarkdownChangelog content (m :: m2 :: rest2) =
          { version := sliceStr content m.capStart m.capStop,
            changes := parseChanges (sliceStr content m.stop m2.start) }
          :: parseMarkdownChangelog content (m2 :: rest2) := rfl
      rw [e1, List.map_cons, ih, List.map_cons]
      simp

lemma tdiv_cast_nat (m k : Nat) : ((m : Int)).tdiv ((k : Int)) = ((m / k : Nat) : Int) := by
  exact_mod_cast (Int.ofNat_tdiv m k).symm

lemma formatRelativeTime_eq_spec (now t : Nat) (ht : t ≠ 0) (hle : t ≤ now) :
    formatRelativeTime now t = relTimeSpec (now - t) := by
  have hd : (now : Int) - (t : Int) = ((now - t : Nat) : Int) := by omega
  have l60 : (60000000000 : Int) = (((60000000000 : Nat) : Int)) := by norm_cast
  have l3600 : (3600000000000 : Int) = (((3600000000000 : Nat) : Int)) := by norm_cast
  have l24 : (24 : Int) = (((24 : Nat) : Int)) := by norm_cast
  have l7 : (7 : Int) = (((7 : Nat) : Int)) := by norm_cast
  have l30 : (30 : Int) = (((30 : Nat) : Int)) := by norm_cast
  have l60b : (60 : Int) = (((60 : Nat) : Int)) := by norm_cast
  have l4 : (4 : Int) = (((4 : Nat) : Int)) := by norm_cast
  simp only [formatRelativeTime, if_neg ht, hd, l60, l3600, l24, l7, l30, l60b, l4,
    tdiv_cast_nat, Nat.cast_lt]
  rw [relTimeSpec]
  set dN := now - t with hdN
  have c1 : dN / 60000000000 < 60 ↔ dN < 3600000000000 := by
    rw [Nat.div_lt_iff_lt_mul (by norm_num)]
  have c2 : dN / 3600000000000 < 24 ↔ dN < 86400000000000 := by
    rw [Nat.div_lt_iff_lt_mul (by norm_num)]
  have d2 : dN / 3600000000000 / 24 = dN / 86400000000000 := by
    rw [Nat.div_div_eq_div_mul]
  have c3 : dN / 86400000000000 < 7 ↔ dN < 604800000000000 := by
    rw [Nat.div_lt_iff_lt_mul (by norm_num)]
  have d3 : dN / 86400000000000 / 7 = dN / 604800000000000 := by
    rw [Nat.div_div_eq_div_mul]
  have c4 : dN / 604800000000000 < 4 ↔ dN < 2419200000000000 := by
    rw [Nat.div_lt_iff_lt_mul (by norm_num)]
  have d4 : dN / 86400000000000 / 30 = dN / 2592000000000000 := by
    rw [Nat.div_div_eq_div_mul]
  rw [d2, d3, d4]
  have tcast : ∀ n : Nat, toString ((n : Int)) = toString n := fun _ => rfl
  simp only [tcast]
  by_cases h1 : dN < 3600000000000
  · rw [if_pos (c1.2 h1), if_pos h1]
  · rw [if_neg (fun hc => h1 (c1.1 hc)), if_neg h1]
    by_cases h2 : dN < 86400000000000
    · rw [if_pos (c2.2 h2), if_pos h2]
    · rw [if_neg (fun hc => h2 (c2.1 hc)), if_neg h2]
      by_cases h3 : dN < 604800000000000
      · rw [if_pos (c3.2 h3), if_pos h3]
      · rw [if_neg (fun hc => h3 (c3.1 hc)), if_neg h3]
        by_cases h4 : dN < 2419200000000000
        · rw [if_pos (c4.2 h4), if_pos h4]
        · rw [if_neg (fun hc => h4 (c4.1 hc)), if_neg h4]

lemma calculateAvgReleaseFreq_eq_spec (entries : List ChangelogEntry) (dn : Nat)
    (h2 : 2 ≤ (collectValid entries).length) (havg : avgOf entries = (dn : Int)) :
    calculateAvgReleaseFreq entries = cadenceSpec dn := by
  have hn2 : ¬ ((collectValid entries).length < 2) := by omega
  have l3600 : (3600000000000 : Int) = (((3600000000000 : Nat) : Int)) := by norm_cast
  have l24 : (24 : Int) = (((24 : Nat) : Int)) := by norm_cast
  have l7 : (7 : Int) = (((7 : Nat) : Int)) := by norm_cast
  have l30 : (30 : Int) = (((30 : Nat) : Int)) := by norm_cast
  have l1 : (1 : Int) = (((1 : Nat) : Int)) := by norm_cast
  have l4 : (4 : Int) = (((4 : Nat) : Int)) := by norm_cast
  simp only [calculateAvgReleaseFreq, if_neg hn2, havg, l3600, l24, l7, l30, l1, l4,
    tdiv_cast_nat, Nat.cast_lt]
  rw [cadenceSpec]
  have d2 : dn / 3600000000000 / 24 = dn / 86400000000000 := by
    rw [Nat.div_div_eq_div_mul]
  have d3 : dn / 86400000000000 / 7 = dn / 604800000000000 := by
    rw [Nat.div_div_eq_div_mul]
  have d4 : dn / 86400000000000 / 30 = dn / 2592000000000000 := by
    rw [Nat.div_div_eq_div_mul]
  have c1 : dn / 86400000000000 < 1 ↔ dn < 86400000000000 := by
    rw [Nat.div_lt_iff_lt_mul (by norm_num)]
  have c2 : dn / 86400000000000 < 7 ↔ dn < 604800000000000 := by
    rw [Nat.div_lt_iff_lt_mul (by norm_num)]
  have c3 : dn / 604800000000000 < 4 ↔ dn < 2419200000000000 := by
    rw [Nat.div_lt_iff_lt_mul (by norm_num)]
  rw [d2, d3, d4]
  have tcast : ∀ n : Nat, toString ((n : Int)) = toString n := fun _ => rfl
  simp only [tcast]
  by_cases h1 : dn < 86400000000000
  · rw [if_pos (c1.2 h1), if_pos h1]
  · rw [if_neg (fun hc => h1 (c1.1 hc)), if_neg h1]
    by_cases hb2 : dn < 604800000000000
    · rw [if_pos (c2.2 hb2), if_pos hb2]
    · rw [if_neg (fun hc => hb2 (c2.1 hc)), if_neg hb2]
      by_cases hb3 : dn < 2419200000000000
      · rw [if_pos (c3.2 hb3), if_pos hb3]
      · rw [if_neg (fun hc => hb3 (c3.1 hc)), if_neg hb3]

lemma goStrLt_asymm : ∀ a b : Str, goStrLt a b = true → goStrLt b a = false := by
  intro a
  induction a with
  | nil =>
    intro b h
    cases b with
    | nil => simp [goStrLt] at h
    | cons y ys => simp [goStrLt]
  | cons x xs ih =>
    intro b h
    cases b with
    | nil => simp [goStrLt] at h
    | cons y ys =>
      simp only [goStrLt] at h ⊢
      by_cases h1 : x.toNat < y.toNat
      · rw [if_neg (by omega), if_pos h1]
      · rw [if_neg h1] at h
        by_cases h2 : y.toNat < x.toNat
        · rw [if_pos h2] at h
          exact absurd h (by simp)
        · rw [if_neg h2] at h
          rw [if_neg h2, if_neg h1]
          exact ih ys h

lemma goStrLt_neg_trans : ∀ a b c : Str,
    goStrLt b a = false → goStrLt c b = false → goStrLt c a = false := by
  intro a
  induction a with
  | nil =>
    intro b c h1 h2
    cases c with
    | nil => simp [goStrLt]
    | cons z zs => simp [goStrLt]
  | cons x xs ih =>
    intro b c h1 h2
    cases b with
    | nil => simp [goStrLt] at h1
    | cons y ys =>
      cases c with
      | nil => simp [goStrLt] at h2
      | cons z zs =>
        simp only [goStrLt] at h1 h2 ⊢
        by_cases hyx : y.toNat < x.toNat
        · rw [if_pos hyx] at h1
          exact absurd h1 (by simp)
        · rw [if_neg hyx] at h1
          by_cases hzy : z.toNat < y.toNat
          · rw [if_pos hzy] at h2
            exact absurd h2 (by simp)
          · rw [if_neg hzy] at h2
            by_cases hzx : z.toNat < x.toNat
            · exact absurd hzx (by omega)
            · rw [if_neg hzx]
              by_cases hxz : x.toNat < z.toNat
              · rw [if_pos hxz]
              · rw [if_neg hxz]
                have hxy : ¬ x.toNat < y.toNat := by omega
                have hyz : ¬ y.toNat < z.toNat := by omega
                rw [if_neg hxy] at h1
                rw [if_neg hyz] at h2
                exact ih ys zs h1 h2

lemma statRel_iff (x y : StatusEntry) : statRel x y ↔ statusSpecLE x y := by
  unfold statRel statusLess statusSpecLE
  by_cases hx : x.releasedAt = 0 <;> by_cases hy : y.releasedAt = 0 <;>
    simp [hx, hy] <;> omega

lemma statusLess_asymm (a b : StatusEntry) (h : statusLess a b = true) :
    statusLess b a = false := by
  unfold statusLess at h ⊢
  by_cases hA : a.releasedAt = 0 <;> by_cases hB : b.releasedAt = 0
  · rw [if_pos ⟨hA, hB⟩] at h
    rw [if_pos ⟨hB, hA⟩]
    exact goStrLt_asymm _ _ h
  · rw [if_neg (fun hc => hB hc.2), if_pos hA] at h
    exact absurd h (by simp)
  · rw [if_neg (fun hc => hA hc.2), if_pos hB]
  · rw [if_neg (fun hc => hA hc.1), if_neg hA, if_neg hB] at h
    rw [if_neg (fun hc => hB hc.1), if_neg hB, if_neg hA]
    simp only [decide_eq_true_eq] at h
    simp only [decide_eq_false_iff_not]
    omega

instance : IsTotal StatusEntry statRel :=
  ⟨fun a b => by
    unfold statRel
    cases h : statusLess a b with
    | false => exact Or.inr rfl
    | true => exact Or.inl (statusLess_asymm a b h)⟩

instance : IsTrans StatusEntry statRel :=
  ⟨fun a b c hab hbc => by
    rw [statRel_iff] at hab hbc ⊢
    rcases hab with ⟨ha1, hb0⟩ | ⟨ha1, hb1, hab2⟩ | ⟨ha0, hb0, hab3⟩ <;>
      rcases hbc with ⟨hb1x, hc0⟩ | ⟨hb1x, hc1, hbc2⟩ | ⟨hb0x, hc0x, hbc3⟩
    · exact absurd hb0 hb1x
    · exact absurd hb0 hb1x
    · exact Or.inl ⟨ha1, hc0x⟩
    · exact Or.inl ⟨ha1, hc0⟩
    · exact Or.inr (Or.inl ⟨ha1, hc1, Nat.le_trans hbc2 hab2⟩)
    · exact absurd hb0x hb1
    · exact absurd hb0 (fun h => hb1x h)
      -- dead combination handled below if mismatch
    · exact absurd hb0 (fun h => hb1x h)
    · exact Or.inr (Or.inr ⟨ha0, hc0x, goStrLt_neg_trans _ _ _ hab3 hbc3⟩)⟩

lemma eq_of_perm_of_pairwise_mem {α : Type} {r : α → α → Prop} :
    ∀ (l1 l2 : List α), l1.Perm l2 → l1.Pairwise r → l2.Pairwise r →
      (∀ x ∈ l1, ∀ y ∈ l1, r x y → r y x → x = y) → l1 = l2 := by
  intro l1
  induction l1 with
  | nil =>
    intro l2 hp _ _ _
    exact (List.Perm.nil_eq hp).symm ▸ rfl
  | cons x xs ih =>
    intro l2 hp hs1 hs2 hanti
    cases l2 with
    | nil =>
      have := hp.length_eq
      simp at this
    | cons y ys =>
      by_cases hxy : x = y
      · subst hxy
        have hp2 := hp.cons_inv
        have htail := ih ys hp2 (List.pairwise_cons.1 hs1).2 (List.pairwise_cons.1 hs2).2
          (fun a ha b hb => hanti a (List.mem_cons_of_mem _ ha) b (List.mem_cons_of_mem _ hb))
        rw [htail]
      · have hxmem : x ∈ y :: ys := hp.subset (List.mem_cons_self x xs)
        have hymem : y ∈ x :: xs := hp.symm.subset (List.mem_cons_self y ys)
        have hx2 : x ∈ ys := by
          rcases List.mem_cons.1 hxmem with h | h
          · exact absurd h hxy
          · exact h
        have hy2 : y ∈ xs := by
          rcases List.mem_cons.1 hymem with h | h
          · exact absurd h.symm hxy
          · exact h
        have hrxy : r x y := (List.pairwise_cons.1 hs1).1 y hy2
        have hryx : r y x := (List.pairwise_cons.1 hs2).1 x hx2
        exact absurd
          (hanti x (List.mem_cons_self _ _) y (List.mem_cons_of_mem _ hy2) hrxy hryx) hxy

lemma statRel_times_le (x y : StatusEntry) (hx : x.releasedAt ≠ 0)
    (hy : y.releasedAt ≠ 0) (h : statRel x y) : y.releasedAt ≤ x.releasedAt := by
  rcases (statRel_iff x y).1 h with ⟨_, h2⟩ | ⟨_, _, h3⟩ | ⟨h1, _⟩
  · exact absurd h2 hy
  · exact h3
  · exact absurd h1 hx

/-- C1 (counterexample): on the scenario-B release body, the parser does not
return the single-section result the claim states; the bullet following the
skipped wrapper header is not dropped from the output. -/
theorem c1_counterexample :
    parseReleaseBody c1Body ≠
      ([{ name := ("TUI").toList, changes := [("Added X").toList] }], ([] : List Str)) := by
  decide

/-- C1 (amended): the scenario-B body parses to the TUI section containing
both bullets, with empty ungrouped list.  Skipping the wrapper header leaves
the current-section cursor on TUI, so the following bullet joins TUI. -/
theorem c1_amended :
    parseReleaseBody c1Body =
      ([{ name := ("TUI").toList,
          changes := [("Added X").toList, ("Ignore me").toList] }], ([] : List Str)) := by
  decide

/-- C2: for every document and well-formed match list of a one-capture
version-header pattern, the markdown changelog parser returns exactly one
entry per match, in document order, whose version is the capture of that
match and whose change list is exactly the trimmed dash-prefixed document
lines lying strictly between the end of that header and the start of the
next header (end of document for the last); zero matches yield the empty
list. -/
theorem c2_markdown_parse_spec (content : Str) (ms : List GoMatch)
    (h : matchesWF content ms = true) :
    parseMarkdownChangelog content ms = specEntries content ms ∧
    (parseMarkdownChangelog content ms).length = ms.length ∧
    parseMarkdownChangelog content ([] : List GoMatch) = [] := by
  refine ⟨pmc_eq_specEntries content ms h, ?_, rfl⟩
  rw [pmc_eq_specEntries content ms h, specEntries_length]

/-- C2 witness: the theorem instantiated at the scenario-A document with its
two concrete header matches. -/
theorem c2_witness :
    matchesWF c2Content c2Matches = true ∧
    (parseMarkdownChangelog c2Content c2Matches = specEntries c2Content c2Matches ∧
      (parseMarkdownChangelog c2Content c2Matches).length = c2Matches.length ∧
      parseMarkdownChangelog c2Content ([] : List GoMatch) = []) :=
  ⟨by decide, c2_markdown_parse_spec c2Content c2Matches (by decide)⟩

/-- C3: for every release body, every section emitted by the release-body
parser has a nonempty change list, and none is named by the skipped
wrapper-header name. -/
theorem c3_sections_nonempty_not_wc (body : Str) :
    ∀ sec ∈ (parseReleaseBody body).1, sec.changes ≠ [] ∧ sec.name ≠ wcName :=
  prbGo_sections_ok (splitNL body) none (fun _ hs => Option.noConfusion hs)

/-- C3 witness: the theorem instantiated at a concrete body whose parse
emits one section. -/
theorem c3_witness :
    ([("x").toList] : List Str) ≠ [] ∧ ("A").toList ≠ wcName :=
  c3_sections_nonempty_not_wc c3Body
    { name := ("A").toList, changes := [("x").toList] } (by decide)

/-- C4 (counterexample): the tag vrust-v1.0.0 starts with the known prefix
v (and not with rust-v), yet normalization does not strip exactly that one
prefix: it removes both v and rust-v. -/
theorem c4_counterexample :
    hasPref vPref c4Tag = true ∧ hasPref rustPref c4Tag = false ∧
    normalizeTag c4Tag ≠ c4Tag.drop 1 ∧ normalizeTag c4Tag = c4Tag.drop 7 := by
  decide

/-- C4 (amended): normalization strips v when present and then additionally
strips rust-v when the remainder still carries it (so a tag like vrust-vX
loses both); it is the identity, hence idempotent, on tags starting with
neither prefix. -/
theorem c4_amended (t : Str) :
    (hasPref vPref t = false → hasPref rustPref t = false →
      normalizeTag t = t) ∧
    (hasPref rustPref t = true → normalizeTag t = t.drop 6) ∧
    (hasPref vPref t = true → hasPref rustPref (t.drop 1) = false →
      normalizeTag t = t.drop 1) ∧
    (hasPref vPref t = true → hasPref rustPref (t.drop 1) = true →
      normalizeTag t = t.drop 7) ∧
    (hasPref vPref t = false → hasPref rustPref t = false →
      normalizeTag (normalizeTag t) = normalizeTag t) := by
  have hv1 : vPref.length = 1 := rfl
  have hr6 : rustPref.length = 6 := rfl
  refine ⟨?_, ?_, ?_, ?_, ?_⟩
  · intro h1 h2
    have e1 : stripPref vPref t = t := by rw [stripPref, if_neg (by simp [h1])]
    rw [normalizeTag, e1, stripPref, if_neg (by simp [h2])]
  · intro h2
    have h1 := hasPref_v_of_rust t h2
    have e1 : stripPref vPref t = t := by rw [stripPref, if_neg (by simp [h1])]
    rw [normalizeTag, e1, stripPref, if_pos (by simp [h2]), hr6]
  · intro h1 h2
    have e1 : stripPref vPref t = t.drop 1 := by
      rw [stripPref, if_pos (by simp [h1]), hv1]
    rw [normalizeTag, e1, stripPref, if_neg (by simpa [List.drop_one] using h2)]
  · intro h1 h2
    have e1 : stripPref vPref t = t.drop 1 := by
      rw [stripPref, if_pos (by simp [h1]), hv1]
    rw [normalizeTag, e1, stripPref, if_pos (by simpa [List.drop_one] using h2), hr6,
      List.drop_drop]
  · intro h1 h2
    have e1 : stripPref vPref t = t := by rw [stripPref, if_neg (by simp [h1])]
    have h3 : normalizeTag t = t := by
      rw [normalizeTag, e1, stripPref, if_neg (by simp [h2])]
    rw [h3, h3]

/-- C4 witness: the amended theorem applied to a concrete rust-v tag. -/
theorem c4_witness :
    normalizeTag (("rust-v1.2.3").toList) = ("rust-v1.2.3").toList.drop 6 :=
  (c4_amended (("rust-v1.2.3").toList)).2.1 (by decide)

/-- C5: in the latest view, the output is sorted by release timestamp
descending, and an entry is in the output exactly when it is the newest
(index 0) entry of a successfully fetched source, has a nonzero timestamp
strictly after the cutoff (the Go code passes invocation time minus 24
hours), and is stamped with that source display name. -/
theorem c5_latest_filter_and_sort (cutoff : Nat) (rs : List SourceResult) :
    List.Sorted latRel (runLatestEntries cutoff rs) ∧
    ∀ e : ChangelogEntry, e ∈ runLatestEntries cutoff rs ↔
      ∃ r ∈ rs, ∃ e0 es, r.res = some (e0 :: es) ∧ e0.releasedAt ≠ 0 ∧
        cutoff < e0.releasedAt ∧ e = { e0 with source := r.display } := by
  constructor
  · exact List.sorted_insertionSort latRel _
  · intro e
    rw [runLatestEntries, (List.perm_insertionSort latRel _).mem_iff,
      latestCollect, List.mem_filterMap]
    constructor
    · rintro ⟨r, hr, hf⟩
      refine ⟨r, hr, ?_⟩
      rcases hres : r.res with _ | entries
      · rw [hres] at hf
        simp at hf
      · rcases entries with _ | ⟨e0, es⟩
        · rw [hres] at hf
          simp at hf
        · rw [hres] at hf
          have hf2 : (if ({ e0 with source := r.display } : ChangelogEntry).releasedAt ≠ 0 ∧
                cutoff < ({ e0 with source := r.display } : ChangelogEntry).releasedAt
              then some ({ e0 with source := r.display } : ChangelogEntry)
              else none) = some e := hf
          split at hf2
          · rename_i hcond
            injection hf2 with hf2
            exact ⟨e0, es, rfl, hcond.1, hcond.2, hf2.symm⟩
          · exact absurd hf2 (by simp)
    · rintro ⟨r, hr, e0, es, hres, h0, hcut, rfl⟩
      refine ⟨r, hr, ?_⟩
      rw [hres]
      have hcond : ({ e0 with source := r.display } : ChangelogEntry).releasedAt ≠ 0 ∧
          cutoff < ({ e0 with source := r.display } : ChangelogEntry).releasedAt :=
        ⟨h0, hcut⟩
      show (if ({ e0 with source := r.display } : ChangelogEntry).releasedAt ≠ 0 ∧
            cutoff < ({ e0 with source := r.display } : ChangelogEntry).releasedAt
          then some ({ e0 with source := r.display } : ChangelogEntry) else none) =
        some { e0 with source := r.display }
      rw [if_pos hcond]

/-- C6 (counterexample): a 30-minute duration formats as minutes in the
updated-ago formatter but as an hours magnitude in the cadence formatter,
so the two formatters do not share the minutes bucket. -/
theorem c6_counterexample :
    formatRelativeTime 1800000000001 1 = "30m ago" ∧
    calculateAvgReleaseFreq c6Entries = "~0h" ∧
    ("~0h" : String) ≠ "~30m" := by
  refine ⟨?_, ?_, by decide⟩ <;> decide

/-- C6 (amended): the updated-ago formatter buckets elapsed duration d as
minutes below 1 hour, hours below 24 hours, days below 7 days, weeks below
4 weeks, and 30-day months otherwise; the cadence formatter uses the same
boundaries from 24 hours upward but renders every duration below 24 hours
as hours, having no minutes bucket. -/
theorem c6_amended (now t : Nat) (entries : List ChangelogEntry) (dn : Nat)
    (ht : t ≠ 0) (hle : t ≤ now)
    (h2 : 2 ≤ (collectValid entries).length) (havg : avgOf entries = (dn : Int)) :
    formatRelativeTime now t = relTimeSpec (now - t) ∧
    calculateAvgReleaseFreq entries = cadenceSpec dn :=
  ⟨formatRelativeTime_eq_spec now t ht hle,
   calculateAvgReleaseFreq_eq_spec entries dn h2 havg⟩

/-- C6 witness: the amended theorem applied to a 2-hour duration and a list
of two entries released 2 hours apart. -/
theorem c6_witness :
    formatRelativeTime 7200000000005 5 = relTimeSpec (7200000000005 - 5) ∧
    calculateAvgReleaseFreq c6GoodEntries = cadenceSpec 7200000000000 :=
  c6_amended 7200000000005 5 c6GoodEntries 7200000000000
    (by decide) (by decide) (by decide) (by decide)

/-- C7: for every input row list, the status sort is a permutation of its
input ordered by `statusSpecLE` (dated rows by timestamp descending), with
the two undated-row clauses stated separately: a row with no timestamp is
never followed by a dated row (so every undated row sorts after all dated
rows), and among two undated rows the earlier one's display name is not
greater; moreover three rows with strictly descending timestamps come out
in exactly that order from any input permutation. -/
theorem c7_status_sorting (a b c : StatusEntry) (l : List StatusEntry)
    (h1 : b.releasedAt < a.releasedAt) (h2 : c.releasedAt < b.releasedAt)
    (h3 : 0 < c.releasedAt) (hperm : l.Perm [a, b, c]) :
    (∀ m : List StatusEntry,
      (sortStatus m).Perm m ∧
      (sortStatus m).Pairwise statusSpecLE ∧
      (sortStatus m).Pairwise (fun x y => x.releasedAt = 0 → y.releasedAt = 0) ∧
      (sortStatus m).Pairwise (fun x y =>
        x.releasedAt = 0 → y.releasedAt = 0 → goStrLt y.name x.name = false)) ∧
    sortStatus l = [a, b, c] := by
  refine ⟨?_, ?_⟩
  · intro m
    have hsortedm : (sortStatus m).Pairwise statRel :=
      List.sorted_insertionSort statRel m
    have hpermm : (sortStatus m).Perm m := List.perm_insertionSort statRel m
    have hsp : (sortStatus m).Pairwise statusSpecLE :=
      hsortedm.imp (fun h => (statRel_iff _ _).1 h)
    refine ⟨hpermm, hsp, ?_, ?_⟩
    · refine hsp.imp ?_
      intro x y hxy hx0
      rcases hxy with ⟨hxne, _⟩ | ⟨hxne, _, _⟩ | ⟨_, hy0, _⟩
      · exact absurd hx0 hxne
      · exact absurd hx0 hxne
      · exact hy0
    · refine hsp.imp ?_
      intro x y hxy hx0 hy0
      rcases hxy with ⟨hxne, _⟩ | ⟨hxne, _, _⟩ | ⟨_, _, hnm⟩
      · exact absurd hx0 hxne
      · exact absurd hx0 hxne
      · exact hnm
  have hsorted : (sortStatus l).Pairwise statRel := List.sorted_insertionSort statRel l
  have hperm2 : (sortStatus l).Perm l := List.perm_insertionSort statRel l
  have ha0 : a.releasedAt ≠ 0 := by omega
  have hb0 : b.releasedAt ≠ 0 := by omega
  have hc0 : c.releasedAt ≠ 0 := by omega
  have habc : ([a, b, c] : List StatusEntry).Pairwise statRel := by
    refine List.pairwise_cons.2 ⟨?_, List.pairwise_cons.2 ⟨?_, ?_⟩⟩
    · intro y hy
      rw [statRel_iff]
      rcases List.mem_cons.1 hy with rfl | hy2
      · exact Or.inr (Or.inl ⟨ha0, hb0, by omega⟩)
      · rcases List.mem_cons.1 hy2 with rfl | hy3
        · exact Or.inr (Or.inl ⟨ha0, hc0, by omega⟩)
        · simp at hy3
    · intro y hy
      rw [statRel_iff]
      rcases List.mem_cons.1 hy with rfl | hy2
      · exact Or.inr (Or.inl ⟨hb0, hc0, by omega⟩)
      · simp at hy2
    · simp
  refine eq_of_perm_of_pairwise_mem (r := statRel) _ _ (hperm2.trans hperm) hsorted habc ?_
  intro x hx y hy hrxy hryx
  have hx3 : x = a ∨ x = b ∨ x = c := by
    have := (hperm2.trans hperm).subset hx
    simpa using this
  have hy3 : y = a ∨ y = b ∨ y = c := by
    have := (hperm2.trans hperm).subset hy
    simpa using this
  have hxne : x.releasedAt ≠ 0 := by rcases hx3 with rfl | rfl | rfl <;> omega
  have hyne : y.releasedAt ≠ 0 := by rcases hy3 with rfl | rfl | rfl <;> omega
  have hle1 := statRel_times_le x y hxne hyne hrxy
  have hle2 := statRel_times_le y x hyne hxne hryx
  rcases hx3 with rfl | rfl | rfl <;> rcases hy3 with rfl | rfl | rfl <;>
    first
      | rfl
      | omega

/-- C7 witness: the theorem applied to three concrete dated rows given in
scrambled order, with the universal conjunct instantiated at a mixed list
holding one dated and two undated rows, whose concrete sort places the
dated row first and the undated rows after it in ascending name order. -/
theorem c7_witness :
    ((sortStatus c7Mixed).Perm c7Mixed ∧
      (sortStatus c7Mixed).Pairwise statusSpecLE ∧
      (sortStatus c7Mixed).Pairwise (fun x y => x.releasedAt = 0 → y.releasedAt = 0) ∧
      (sortStatus c7Mixed).Pairwise (fun x y =>
        x.releasedAt = 0 → y.releasedAt = 0 → goStrLt y.name x.name = false)) ∧
    sortStatus c7Rows = [c7RowA, c7RowB, c7RowC] ∧
    sortStatus c7Mixed = [c7RowA, c7RowUa, c7RowUz] :=
  ⟨(c7_status_sorting c7RowA c7RowB c7RowC c7Rows
      (by decide) (by decide) (by decide) (by decide)).1 c7Mixed,
   (c7_status_sorting c7RowA c7RowB c7RowC c7Rows
      (by decide) (by decide) (by decide) (by decide)).2,
   by decide⟩

/-- C8: the commit-date fallback of the Claude adapter is attempted exactly
when the parsed newest entry has a zero timestamp; when the fallback result
is nonzero it replaces only that newest entry timestamp, and every other
field of the newest entry and all older entries are unchanged. -/
theorem c8_claude_fallback_frame (e : ChangelogEntry) (rest : List ChangelogEntry)
    (cd : Nat) :
    fetchClaudeProcess (e :: rest) cd =
      ({ e with releasedAt := if e.releasedAt = 0 ∧ cd ≠ 0 then cd else e.releasedAt }
          :: rest,
        decide (e.releasedAt = 0)) ∧
    fetchClaudeProcess ([] : List ChangelogEntry) cd = ([], false) := by
  refine ⟨?_, rfl⟩
  by_cases h0 : e.releasedAt = 0
  · by_cases hcd : cd = 0
    · have hcond : ¬ (e.releasedAt = 0 ∧ cd ≠ 0) := by simp [hcd]
      have hr : ({ e with releasedAt :=
          if e.releasedAt = 0 ∧ cd ≠ 0 then cd else e.releasedAt } : ChangelogEntry) = e := by
        rw [if_neg hcond]
      rw [hr]
      simp only [fetchClaudeProcess]
      rw [if_pos h0, if_neg (by simp [hcd] : ¬ cd ≠ 0)]
      simp [h0]
    · simp [fetchClaudeProcess, h0, hcd]
  · simp [fetchClaudeProcess, h0]

/-- C9 (counterexample): the releases adapter copies normalized tags into
versions verbatim, so two tags normalizing to the same string yield
duplicate versions in one list, and a tag that is exactly the prefix v
yields an empty version. -/
theorem c9_counterexample :
    (fetchGitHubReleasesEntries c9Rels).map ChangelogEntry.version =
      [("1.0").toList, ("1.0").toList] ∧
    ¬ ((fetchGitHubReleasesEntries c9Rels).map ChangelogEntry.version).Nodup ∧
    (fetchGitHubReleasesEntries
        [{ tagName := ['v'], body := [], publishedAt := 1 }]).map
      ChangelogEntry.version = [([] : Str)] := by
  refine ⟨by decide, ?_, by decide⟩
  decide

/-- C9 (amended): when the fetched tag names normalize to pairwise distinct
nonempty strings, and the markdown matches capture pairwise distinct
nonempty version strings, each adapter output has nonempty and pairwise
distinct versions. -/
theorem c9_amended (rels : List Release) (content : Str) (ms : List GoMatch)
    (h1 : ∀ r ∈ rels, normalizeTag r.tagName ≠ [])
    (h2 : (rels.map fun r => normalizeTag r.tagName).Nodup)
    (h3 : ∀ m ∈ ms, sliceStr content m.capStart m.capStop ≠ [])
    (h4 : (ms.map fun m => sliceStr content m.capStart m.capStop).Nodup) :
    ((∀ e ∈ fetchGitHubReleasesEntries rels, e.version ≠ []) ∧
      ((fetchGitHubReleasesEntries rels).map ChangelogEntry.version).Nodup) ∧
    ((∀ e ∈ parseMarkdownChangelog content ms, e.version ≠ []) ∧
      ((parseMarkdownChangelog content ms).map ChangelogEntry.version).Nodup) := by
  refine ⟨⟨?_, ?_⟩, ⟨?_, ?_⟩⟩
  · intro e he
    have hv : e.version ∈ (fetchGitHubReleasesEntries rels).map ChangelogEntry.version :=
      List.mem_map_of_mem _ he
    rw [ghEntries_map_version] at hv
    obtain ⟨r, hr, hver⟩ := List.mem_map.1 hv
    rw [← hver]
    exact h1 r hr
  · rw [ghEntries_map_version]
    exact h2
  · intro e he
    have hv : e.version ∈ (parseMarkdownChangelog content ms).map ChangelogEntry.version :=
      List.mem_map_of_mem _ he
    rw [pmc_map_version] at hv
    obtain ⟨m, hm, hver⟩ := List.mem_map.1 hv
    rw [← hver]
    exact h3 m hm
  · rw [pmc_map_version]
    exact h4

/-- C9 witness: the amended theorem applied to two distinct releases and
the scenario-A markdown document. -/
theorem c9_witness :
    ((∀ e ∈ fetchGitHubReleasesEntries c9GoodRels, e.version ≠ []) ∧
      ((fetchGitHubReleasesEntries c9GoodRels).map ChangelogEntry.version).Nodup) ∧
    ((∀ e ∈ parseMarkdownChangelog c2Content c2Matches, e.version ≠ []) ∧
      ((parseMarkdownChangelog c2Content c2Matches).map ChangelogEntry.version).Nodup) :=
  c9_amended c9GoodRels c2Content c2Matches (by decide) (by decide) (by decide) (by decide)

/-- C10: in the latest view a source that succeeds with an empty entry list
contributes neither an entry nor a warning wherever it sits in the result
list, a failed source contributes exactly one warning, a run in which no
source survives produces the no-releases message, and in single-source mode
an empty entry list is a distinct fatal outcome. -/
theorem c10_empty_source_silently_omitted (cutoff : Nat) (d : Str)
    (rs1 rs2 : List SourceResult) :
    runLatestEntries cutoff (rs1 ++ { display := d, res := some [] } :: rs2) =
      runLatestEntries cutoff (rs1 ++ rs2) ∧
    latestWarnings (rs1 ++ { display := d, res := some [] } :: rs2) =
      latestWarnings (rs1 ++ rs2) ∧
    latestWarnings (rs1 ++ { display := d, res := none } :: rs2) =
      latestWarnings rs1 ++ d :: latestWarnings rs2 ∧
    latestMessage cutoff [{ display := d, res := some [] }] =
      some ("No releases in the last 24 hours.") ∧
    singleModeOutcome (some []) = SingleOutcome.emptyFailure := by
  refine ⟨?_, ?_, ?_, rfl, rfl⟩
  · rw [runLatestEntries, runLatestEntries, latestCollect, latestCollect,
      List.filterMap_append, List.filterMap_append, List.filterMap_cons]
  · rw [latestWarnings, latestWarnings, List.filterMap_append, List.filterMap_append,
      List.filterMap_cons]
  · rw [latestWarnings, latestWarnings, List.filterMap_append, List.filterMap_cons]
    rfl
